import Mathlib


/-!
Verification of the ifc-mvp model-viewer core against its natural-language
specification.  The definitions below are shallow embeddings of the
TypeScript source: spatial-tree click handling (ModelTree.tsx), the scene
selection hooks (useSelection.ts and its full variant), the material-table
selection state machine (MaterialTable), the geometry dimension
accumulation of the client loader (useIFCLoader.ts), the worker parser's
aggregation (the web worker), the fragment ingestion guards, the server
convert route's cache, and the recursive spatial-structure builder.
-/

/-! ### Association-list helpers (JS `Map` semantics used throughout the source) -/

/-- Lookup in an association list (JS `Map.get`). -/
def alookup {κ β : Type} [DecidableEq κ] : List (κ × β) → κ → Option β
  | [], _ => none
  | p :: ps, k => if p.1 = k then some p.2 else alookup ps k

/-- Replace the stored pair at a key (helper for `Map.set` on a present key). -/
def areplace {κ β : Type} [DecidableEq κ] (m : List (κ × β)) (k : κ) (v : β) : List (κ × β) :=
  m.map (fun p => if p.1 = k then (k, v) else p)

/-- Store a value at a key: replace if present, append if absent (JS `Map.set`). -/
def aset {κ β : Type} [DecidableEq κ] (m : List (κ × β)) (k : κ) (v : β) : List (κ × β) :=
  match alookup m k with
  | some _ => areplace m k v
  | none => m ++ [(k, v)]

/-- `Map.get`-then-`Map.set` accumulation: apply `upd` to the stored value, or
store `init` when the key is new.  This is the accumulation pattern used by
every aggregation loop in the source. -/
def upsert {κ β : Type} [DecidableEq κ] (m : List (κ × β)) (k : κ) (init : β) (upd : β → β) :
    List (κ × β) :=
  match alookup m k with
  | some g => areplace m k (upd g)
  | none => m ++ [(k, init)]

/-- Sum of a numeric projection over the values of an association list. -/
def sumVals {κ β : Type} (f : β → Nat) (m : List (κ × β)) : Nat :=
  (m.map (fun p => f p.2)).sum

/-! ### Spatial nodes and the tree click handler (types/ifc.ts, ModelTree.tsx) -/

/-- `IFCSpatialNode` from types/ifc.ts: a containment-hierarchy node with its
directly contained element ids (`elements`) and child nodes (`children`). -/
inductive IFCSpatialNode : Type where
  | node (expressID : Nat) (name : String) (typeCode : Nat)
      (children : List IFCSpatialNode) (elements : List Nat)

def IFCSpatialNode.expressID : IFCSpatialNode → Nat
  | .node i _ _ _ _ => i

def IFCSpatialNode.children : IFCSpatialNode → List IFCSpatialNode
  | .node _ _ _ c _ => c

def IFCSpatialNode.elements : IFCSpatialNode → List Nat
  | .node _ _ _ _ e => e

mutual

/-- `collectElements` from ModelTree.tsx `TreeNode.handleClick`: the node's own
direct elements followed by the recursively collected elements of each child,
in order. -/
def collectElements : IFCSpatialNode → List Nat
  | .node _ _ _ children elements => elements ++ collectChildren children

def collectChildren : List IFCSpatialNode → List Nat
  | [] => []
  | c :: cs => collectElements c ++ collectChildren cs

end

/-- `TreeNode.handleClick` from ModelTree.tsx.  Returns `some ids` when the
click invokes `onSelect ids`, and `none` when the click is a no-op. -/
def treeHandleClick (n : IFCSpatialNode) : Option (List Nat) :=
  if n.elements.length > 0 then some n.elements
  else if n.children.length > 0 then
    let allElements := collectElements n
    if allElements.length > 0 then some allElements else none
  else none

/-! ### Scene pick handlers (useSelection.ts and its full variant)

The selection hook keeps `selectedExpressIDs` (the primary selection) and
`selectedMaterialId`.  `handleElementSelect` processes a scene pick
`(expressID | null, typeCode?)`.  The repository contains two parallel
versions of this hook: the full one (with single-selection sentinels and an
empty-lookup fallback) and the simplified one under
components/viewer/hooks/useSelection.ts wired into the main viewer. -/

/-- The full variant of `useSelection.handleElementSelect`: `null` pick clears
both; an absent, 0, or -1 type code selects only the picked element; otherwise the
type lookup with a fallback to the single element when the lookup is empty.
Returns the written `(selectedExpressIDs, selectedMaterialId)` pair. -/
def handleElementSelectFull (lookup : Int → List Nat)
    (expressID : Option Nat) (typeCode : Option Int) : List Nat × Option String :=
  match expressID with
  | none => ([], none)
  | some e =>
    match typeCode with
    | none => ([e], none)
    | some t =>
      if t = 0 ∨ t = -1 then ([e], none)
      else
        let ids := lookup t
        if ids.length = 0 then ([e], none) else (ids, none)

/-- The simplified variant (components/viewer/hooks/useSelection.ts): a `null`
pick or an absent type code clears both; otherwise the raw type lookup is
written with no fallback. -/
def handleElementSelectSimple (lookup : Int → List Nat)
    (expressID : Option Nat) (typeCode : Option Int) : List Nat × Option String :=
  match expressID, typeCode with
  | none, _ => ([], none)
  | some _, none => ([], none)
  | some _, some t => (lookup t, none)

/-- The type index of the scenario in the spec: three elements of type `T1`
(code 7) and one of type `T2` (code 8). -/
def scenarioLookup : Int → List Nat :=
  fun t => if t = 7 then [1, 2, 3] else if t = 8 then [4] else []

/-- C2 counterexample setup: a storey with direct elements {5, 6} whose only
child space contains {7}. -/
def scenarioStorey : IFCSpatialNode :=
  .node 100 "Storey" 3124254112 [.node 200 "Space" 3856911033 [] [7]] [5, 6]

/-! ### The material-table selection state machine (MaterialTable + viewer)

The composed state consists of the parent viewer's selection state
(`selectedExpressIDs` = primary, `selectedMaterialId`, and the green
`tableHighlightedIDs` = secondary element list) together with MaterialTable's
internal `tableInitiatedSelection` flag and `tableHighlightId` row marker.
Events: scene picks (through the simplified hook), table row clicks
(`handleRowClick`), tree selections (`handleSelectElements`) and the explicit
clear.  After each event the MaterialTable reset effect runs when its
dependencies `(selectedExpressIDs.length, selectedMaterialId)` changed. -/

structure MaterialRow where
  id : String
  expressIDs : List Nat
  count : Nat
deriving DecidableEq

structure CoordState where
  primary : List Nat
  matId : Option String
  tableInit : Bool
  rowHl : Option String
  secondary : List Nat
deriving DecidableEq

def initCoordState : CoordState :=
  { primary := [], matId := none, tableInit := false, rowHl := none, secondary := [] }

inductive SelEvent where
  | scenePick (expressID : Option Nat) (typeCode : Option Int)
  | rowClick (r : MaterialRow)
  | treeSelect (ids : List Nat)
  | clearAll

/-- One event applied to the composed state, before the reset effect.
`rowClick` is MaterialTable's `handleRowClick`: with no 3D-origin selection
(or a table-initiated one) it toggles the blue selection through
`onSelectMaterial`; with a 3D-origin selection active it toggles the green
row marker and publishes the row's ids through `onTableHighlight`. -/
def applyEvent (lookup : Int → List Nat) (s : CoordState) : SelEvent → CoordState
  | .scenePick e t =>
      let p := handleElementSelectSimple lookup e t
      { s with primary := p.1, matId := p.2 }
  | .treeSelect ids => { s with primary := ids, matId := none }
  | .clearAll => { s with primary := [], matId := none }
  | .rowClick r =>
      if s.primary.length = 0 ∨ s.tableInit = true then
        if s.matId = some r.id then
          { s with tableInit := false, matId := some "", primary := [] }
        else
          { s with tableInit := true, matId := some r.id, primary := r.expressIDs }
      else
        if s.rowHl = some r.id then
          { s with rowHl := none, secondary := [] }
        else
          { s with rowHl := some r.id, secondary := r.expressIDs }

/-- MaterialTable's selection-reset `useEffect`: it runs only when its
dependencies `(selectedExpressIDs.length, selectedMaterialId)` changed, and
then clears `tableInitiatedSelection` and `tableHighlightId` when the primary
selection is empty or when the material id is `null` (a 3D-origin change). -/
def applyResetEffect (old new : CoordState) : CoordState :=
  if new.primary.length = old.primary.length ∧ new.matId = old.matId then new
  else if new.primary.length = 0 then { new with tableInit := false, rowHl := none }
  else if new.matId = none then { new with tableInit := false, rowHl := none }
  else new

def selStep (lookup : Int → List Nat) (s : CoordState) (e : SelEvent) : CoordState :=
  applyResetEffect s (applyEvent lookup s e)

def selRun (lookup : Int → List Nat) (es : List SelEvent) : CoordState :=
  es.foldl (selStep lookup) initCoordState

/-- MaterialTable `filteredMaterials`: restrict a row to the member ids inside
the active 3D selection; rows left empty are dropped. -/
def filterRow (primary : List Nat) (m : MaterialRow) : Option MaterialRow :=
  let f := m.expressIDs.filter (fun x => primary.contains x)
  if f.length = 0 then none else some { id := m.id, expressIDs := f, count := f.length }

/-- MaterialTable `storeyFilteredMaterials`: restrict a row to a storey's
element set; rows left empty are dropped. -/
def storeyFilterRow (storeyIDs : List Nat) (m : MaterialRow) : Option MaterialRow :=
  let f := m.expressIDs.filter (fun x => storeyIDs.contains x)
  if f.length = 0 then none else some { id := m.id, expressIDs := f, count := f.length }

def storeyFilteredMaterials (materials : List MaterialRow) : Option (List Nat) → List MaterialRow
  | none => materials
  | some ids => materials.filterMap (storeyFilterRow ids)

def filteredMaterials (storeyFiltered : List MaterialRow) (primary : List Nat)
    (tableInit : Bool) : List MaterialRow :=
  if primary.length = 0 ∨ tableInit = true then storeyFiltered
  else storeyFiltered.filterMap (filterRow primary)

/-- The green emphasis the scene actually renders (scene/index.tsx): green is
applied only to elements of the current primary selection that are also in the
published table-highlight list. -/
def sceneGreenHighlight (s : CoordState) : List Nat :=
  s.primary.filter (fun x => s.secondary.contains x)

/-- The quantity-table row used in the concrete selection traces: the group of
the two walls {1, 2}. -/
def rowA : MaterialRow := { id := "45_2700x300x200", expressIDs := [1, 2], count := 2 }

/-- The displayed row for the type-7 group {1, 2, 3} (it coincides with its
base row when the whole group is inside the primary selection). -/
def rowB : MaterialRow := { id := "7_T1", expressIDs := [1, 2, 3], count := 3 }

/-! ### Fragment bounding metrics (useIFCLoader.ts, StreamAllMeshes callback)

Geometry is modelled over the rationals.  The loader computes the local
bounding box of a fragment's vertex positions, transforms the *box* by the
placement matrix (THREE's `Box3.applyMatrix4` maps the eight corners and
takes their axis-aligned bounds), takes per-axis sizes, rounds them to whole
millimeters, and merges per-element as the per-axis maximum of fragment
sizes, while the approximate area (product of the two largest sizes of that
fragment's transformed box) is summed across fragments. -/

structure Vec3 where
  x : Rat
  y : Rat
  z : Rat
deriving DecidableEq

structure Box3 where
  minX : Rat
  minY : Rat
  minZ : Rat
  maxX : Rat
  maxY : Rat
  maxZ : Rat
deriving DecidableEq

/-- A 4x4 placement matrix; `aij` is row `i`, column `j` of the mathematical
matrix (THREE's `flatTransformation` stores these column-major). -/
structure Mat4 where
  a11 : Rat
  a12 : Rat
  a13 : Rat
  a14 : Rat
  a21 : Rat
  a22 : Rat
  a23 : Rat
  a24 : Rat
  a31 : Rat
  a32 : Rat
  a33 : Rat
  a34 : Rat
  a41 : Rat
  a42 : Rat
  a43 : Rat
  a44 : Rat
deriving DecidableEq

def identityMat4 : Mat4 :=
  { a11 := 1, a12 := 0, a13 := 0, a14 := 0,
    a21 := 0, a22 := 1, a23 := 0, a24 := 0,
    a31 := 0, a32 := 0, a33 := 1, a34 := 0,
    a41 := 0, a42 := 0, a43 := 0, a44 := 1 }

/-- THREE `Vector3.applyMatrix4`: projective application with division by the
homogeneous coordinate (IFC placements are affine, so `w = 1` throughout). -/
def applyMat4 (m : Mat4) (v : Vec3) : Vec3 :=
  let w := m.a41 * v.x + m.a42 * v.y + m.a43 * v.z + m.a44
  { x := (m.a11 * v.x + m.a12 * v.y + m.a13 * v.z + m.a14) / w,
    y := (m.a21 * v.x + m.a22 * v.y + m.a23 * v.z + m.a24) / w,
    z := (m.a31 * v.x + m.a32 * v.y + m.a33 * v.z + m.a34) / w }

def expandBox (b : Box3) (p : Vec3) : Box3 :=
  { minX := min b.minX p.x, minY := min b.minY p.y, minZ := min b.minZ p.z,
    maxX := max b.maxX p.x, maxY := max b.maxY p.y, maxZ := max b.maxZ p.z }

def boxOfPoint (p : Vec3) : Box3 :=
  { minX := p.x, minY := p.y, minZ := p.z, maxX := p.x, maxY := p.y, maxZ := p.z }

/-- `computeBoundingBox`: axis-aligned bounds of a list of points (`none` for
an empty list, which the ingestion guards already exclude). -/
def boxFromPoints : List Vec3 → Option Box3
  | [] => none
  | p :: ps => some (ps.foldl expandBox (boxOfPoint p))

def boxCorners (b : Box3) : List Vec3 :=
  [⟨b.minX, b.minY, b.minZ⟩, ⟨b.minX, b.minY, b.maxZ⟩,
   ⟨b.minX, b.maxY, b.minZ⟩, ⟨b.minX, b.maxY, b.maxZ⟩,
   ⟨b.maxX, b.minY, b.minZ⟩, ⟨b.maxX, b.minY, b.maxZ⟩,
   ⟨b.maxX, b.maxY, b.minZ⟩, ⟨b.maxX, b.maxY, b.maxZ⟩]

/-- THREE `Box3.applyMatrix4`: transform the eight corners and take their
axis-aligned bounds. -/
def boxApplyMat4 (m : Mat4) (b : Box3) : Box3 :=
  match (boxCorners b).map (applyMat4 m) with
  | [] => b
  | c :: cs => cs.foldl expandBox (boxOfPoint c)

/-- JS `Math.round`: round half toward positive infinity. -/
def jsRound (q : Rat) : Int := Int.floor (q + 1 / 2)

/-- The three values in descending order (JS `.sort((a, b) => b - a)` on a
three-element array). -/
def sortDesc3 (a b c : Rat) : Rat × Rat × Rat :=
  (max a (max b c), a + b + c - max a (max b c) - min a (min b c), min a (min b c))

/-- `ElementDimensions` of types/ifc.ts: per-axis sizes in whole millimeters
plus the accumulated approximate area in square meters. -/
structure ElementDims where
  width : Int
  height : Int
  depth : Int
  area : Rat
deriving DecidableEq

/-- The per-fragment dimension record of the StreamAllMeshes callback: local
box, box transformed by the placement matrix, per-axis sizes rounded to mm,
area the product of the two largest sizes. -/
def fragDims (m : Mat4) (verts : List Vec3) : Option ElementDims :=
  match boxFromPoints verts with
  | none => none
  | some b =>
    let tb := boxApplyMat4 m b
    let sx := tb.maxX - tb.minX
    let sy := tb.maxY - tb.minY
    let sz := tb.maxZ - tb.minZ
    let s := sortDesc3 sx sy sz
    some { width := jsRound (sx * 1000), height := jsRound (sy * 1000),
           depth := jsRound (sz * 1000), area := s.1 * s.2.1 }

/-- The loader's merge of an element's running dimensions with a new
fragment's: per-axis `Math.max` of the rounded sizes, and accumulated area. -/
def mergeDims (ex fd : ElementDims) : ElementDims :=
  { width := max ex.width fd.width, height := max ex.height fd.height,
    depth := max ex.depth fd.depth, area := ex.area + fd.area }

/-- One streamed fragment merged into the element's running dimensions
(the record is created on first appearance and merged afterwards; fragments
with no box contribute nothing). -/
def dimsStep (acc : Option ElementDims) (fr : Mat4 × List Vec3) : Option ElementDims :=
  match fragDims fr.1 fr.2 with
  | none => acc
  | some fd =>
    match acc with
    | none => some fd
    | some ex => some (mergeDims ex fd)

/-- The `elementDimensions` entry an element ends up with after all its
fragments have streamed (each fragment given as placement matrix and vertex
positions). -/
def elementDimsOf (frags : List (Mat4 × List Vec3)) : Option ElementDims :=
  frags.foldl dimsStep none

/-- Modelled from the claim (spec section 4.1): the placement transform applied
to the fragment's vertices before the fragment box is taken. -/
def claimFragBox (m : Mat4) (verts : List Vec3) : Option Box3 :=
  boxFromPoints (verts.map (applyMat4 m))

/-- Modelled from the claim: fragment boxes merged into the element's running
box as min of minima and max of maxima. -/
def claimMergeBox (b1 b2 : Box3) : Box3 :=
  { minX := min b1.minX b2.minX, minY := min b1.minY b2.minY, minZ := min b1.minZ b2.minZ,
    maxX := max b1.maxX b2.maxX, maxY := max b1.maxY b2.maxY, maxZ := max b1.maxZ b2.maxZ }

/-- Modelled from the claim: the element box the claimed algorithm produces. -/
def claimElementBox (frags : List (Mat4 × List Vec3)) : Option Box3 :=
  frags.foldl (fun acc fr =>
    match claimFragBox fr.1 fr.2 with
    | none => acc
    | some b =>
      match acc with
      | none => some b
      | some ex => some (claimMergeBox ex b)) none

/-- Modelled from the claim: the element width (mm) the claimed algorithm
produces. -/
def claimElementWidth (frags : List (Mat4 × List Vec3)) : Option Int :=
  (claimElementBox frags).map (fun b => jsRound ((b.maxX - b.minX) * 1000))

/-- Two disjoint unit-cube fragments of one element, one at the origin and one
translated ten meters along the x axis (both with identity placement). -/
def exFragA : Mat4 × List Vec3 := (identityMat4, [⟨0, 0, 0⟩, ⟨1, 1, 1⟩])

def exFragB : Mat4 × List Vec3 := (identityMat4, [⟨10, 0, 0⟩, ⟨11, 1, 1⟩])

/-! ### Fragment ingestion guards (loadIFC StreamAllMeshes loop, convert route) -/

structure RawFragment where
  vertSize : Nat
  indexSize : Nat
  verts : List Rat
  indices : List Nat
  transform : Mat4
  color : Rat × Rat × Rat × Rat

structure BuiltMesh where
  positions : List Rat
  normals : List Rat
  indices : List Nat
  color : Rat × Rat × Rat × Rat
deriving DecidableEq

/-- The per-fragment body of the ingestion loop: the two skip guards
(`continue` on a zero vertex/index data size and on zero-length arrays),
then the de-interleaving of the six-float vertex records into positions and
normals.  `none` models a silently skipped fragment. -/
def buildFragment (f : RawFragment) : Option BuiltMesh :=
  if f.vertSize = 0 ∨ f.indexSize = 0 then none
  else if f.verts.length = 0 ∨ f.indices.length = 0 then none
  else
    let vertexCount := f.verts.length / 6
    some { positions := ((List.range vertexCount).map (fun v =>
             [f.verts.getD (6 * v) 0, f.verts.getD (6 * v + 1) 0,
              f.verts.getD (6 * v + 2) 0])).flatten,
           normals := ((List.range vertexCount).map (fun v =>
             [f.verts.getD (6 * v + 3) 0, f.verts.getD (6 * v + 4) 0,
              f.verts.getD (6 * v + 5) 0])).flatten,
           indices := f.indices,
           color := f.color }

/-- The whole ingestion loop over a stream of fragments: skipped fragments
contribute nothing, every other fragment contributes one mesh, and no
fragment can abort the loop (the function is total and has no error
outcome). -/
def processFragments (l : List RawFragment) : List BuiltMesh :=
  l.filterMap buildFragment

/-- A degenerate fragment: zero-size vertex data. -/
def exDegenerateFrag : RawFragment :=
  { vertSize := 0, indexSize := 3, verts := [], indices := [0, 1, 2],
    transform := identityMat4, color := (1, 1, 1, 1) }

/-! ### Quantity-takeoff aggregation (loadIFC materialMap; worker parseIFC)

The client loader iterates `tempTypeData` (one `(expressID, typeCode)` entry
per streamed element), skips elements with no `elementDimensions` entry, and
buckets the rest into `materialMap` keyed by the string
`typeCode ++ "_" ++ spec`; members are appended and `totalArea` accumulated.
The worker instead buckets *every* streamed element by type and then by spec
string, using the literal spec `"unknown"` for elements with no dimension
entry.  The spec-derivation function is a parameter (`specOf`): the claim
does not depend on its output. -/

structure ElementEntry where
  expressID : Nat
  typeCode : Nat
deriving DecidableEq

structure MaterialGroupData where
  typeCode : Nat
  spec : String
  dimensions : ElementDims
  totalArea : Rat
  expressIDs : List Nat
deriving DecidableEq

def materialKey (typeCode : Nat) (spec : String) : String :=
  toString typeCode ++ "_" ++ spec

/-- One iteration of the client loader's `materialMap` grouping loop. -/
def aggStep (dims : Nat → Option ElementDims) (specOf : Nat → Nat → String)
    (m : List (String × MaterialGroupData)) (e : ElementEntry) :
    List (String × MaterialGroupData) :=
  match dims e.expressID with
  | none => m
  | some d =>
    let spec := specOf e.expressID e.typeCode
    upsert m (materialKey e.typeCode spec)
      { typeCode := e.typeCode, spec := spec, dimensions := d,
        totalArea := d.area, expressIDs := [e.expressID] }
      (fun g => { g with expressIDs := g.expressIDs ++ [e.expressID],
                         totalArea := g.totalArea + d.area })

/-- The client loader's material groups (the values of `materialMap` in
insertion order; the final cosmetic sort permutes them but does not change
membership). -/
def aggregateClient (dims : Nat → Option ElementDims) (specOf : Nat → Nat → String)
    (entries : List ElementEntry) : List MaterialGroupData :=
  (entries.foldl (aggStep dims specOf) []).map (fun p => p.2)

/-- Total number of occurrences of an element id across all groups. -/
def memberCount (gs : List MaterialGroupData) (x : Nat) : Nat :=
  (gs.map (fun g => g.expressIDs.count x)).sum

/-! ### Worker-variant ingestion and aggregation (the parse worker) -/

structure WorkerFrag where
  vertSize : Nat
  indexSize : Nat
  verts : List Rat
  indices : List Nat
deriving DecidableEq

structure WorkerElem where
  expressID : Nat
  typeCode : Nat
  frags : List WorkerFrag
deriving DecidableEq

/-- The worker's skip guards for one geometry fragment. -/
def workerFragAccepted (f : WorkerFrag) : Bool :=
  if f.vertSize = 0 ∨ f.indexSize = 0 then false
  else if f.verts.length = 0 ∨ f.indices.length = 0 then false
  else true

/-- The vertex positions of one fragment (every sixth-float record's first
three entries). -/
def fragPoints (f : WorkerFrag) : List Vec3 :=
  (List.range (f.verts.length / 6)).map (fun v =>
    { x := f.verts.getD (6 * v) 0, y := f.verts.getD (6 * v + 1) 0,
      z := f.verts.getD (6 * v + 2) 0 })

structure WorkerDims where
  width : Int
  height : Int
  depth : Int
deriving DecidableEq

/-- The worker's per-element bounding box: the running min/max over the raw
local vertex positions of all accepted fragments (no placement transform is
applied in the worker), present only when at least one fragment was accepted
and contributed at least one full vertex. -/
def workerElemDims (e : WorkerElem) : Option WorkerDims :=
  let accepted := e.frags.filter workerFragAccepted
  if accepted.length = 0 then none
  else
    match boxFromPoints ((accepted.map fragPoints).flatten) with
    | none => none
    | some b => some { width := jsRound ((b.maxX - b.minX) * 1000),
                       height := jsRound ((b.maxY - b.minY) * 1000),
                       depth := jsRound ((b.maxZ - b.minZ) * 1000) }

/-- `typeToExpressIDs` of the worker: every streamed element is pushed under
its type, whether or not it has geometry. -/
def workerTypeMap (elems : List WorkerElem) : List (Nat × List Nat) :=
  elems.foldl (fun m e =>
    upsert m e.typeCode [e.expressID] (fun l => l ++ [e.expressID])) []

/-- `elementDimensions` of the worker: set only for elements with a bounding
box. -/
def workerDimsMap (elems : List WorkerElem) : List (Nat × WorkerDims) :=
  elems.foldl (fun m e =>
    match workerElemDims e with
    | none => m
    | some d => aset m e.expressID d) []

def sortDesc3Int (a b c : Int) : Int × Int × Int :=
  (max a (max b c), a + b + c - max a (max b c) - min a (min b c), min a (min b c))

/-- The worker's `getDimensionSpec`: the three mm sizes in descending order. -/
def getDimensionSpec (d : WorkerDims) : String :=
  let s := sortDesc3Int d.width d.height d.depth
  toString s.1 ++ "×" ++ toString s.2.1 ++ "×" ++ toString s.2.2

/-- The worker's per-type `specGroups` accumulation: elements with no
dimension entry are grouped under the literal spec `"unknown"`. -/
def specGroupsFor (dims : Nat → Option WorkerDims) (ids : List Nat) :
    List (String × List Nat) :=
  ids.foldl (fun sg id =>
    upsert sg (match dims id with | some d => getDimensionSpec d | none => "unknown")
      [id] (fun l => l ++ [id])) []

structure WorkerMaterial where
  typeCode : Nat
  spec : String
  count : Nat
  expressIDs : List Nat
deriving DecidableEq

/-- The worker's `materialMap`: per type, per spec string. -/
def workerAggregate (typeMap : List (Nat × List Nat)) (dims : Nat → Option WorkerDims) :
    List WorkerMaterial :=
  typeMap.foldl (fun acc p =>
    acc ++ (specGroupsFor dims p.2).map (fun sp =>
      { typeCode := p.1, spec := sp.1, count := sp.2.length, expressIDs := sp.2 })) []

/-- The worker pipeline's material list for a stream of elements. -/
def workerMaterials (elems : List WorkerElem) : List WorkerMaterial :=
  workerAggregate (workerTypeMap elems) (fun id => alookup (workerDimsMap elems) id)

def workerMemberCount (gs : List WorkerMaterial) (x : Nat) : Nat :=
  (gs.map (fun g => g.expressIDs.count x)).sum

/-- An element streamed with a single degenerate fragment: it acquires no
bounding metrics, yet the worker aggregates it. -/
def exWorkerElem : WorkerElem :=
  { expressID := 1, typeCode := 45,
    frags := [{ vertSize := 0, indexSize := 0, verts := [], indices := [] }] }

/-! ### The server convert route (app/api/convert/route.ts POST) -/

structure RouteMesh where
  expressID : Nat
  typeCode : Nat
  positions : List Rat
  normals : List Rat
  indices : List Nat
  color : Rat × Rat × Rat × Rat
  transform : List Rat
deriving DecidableEq

structure RouteMaterial where
  id : String
  typeCode : Nat
  typeName : String
  category : String
  count : Nat
  expressIDs : List Nat
  dimensions : String
deriving DecidableEq

structure RouteStorey where
  id : String
  name : String
  elevation : Rat
  expressIDs : List Nat
deriving DecidableEq

structure ProcessedModel where
  id : String
  fileName : String
  meshCount : Nat
  meshes : List RouteMesh
  materials : List RouteMaterial
  storeys : List RouteStorey
  spatialTree : Option Unit
  createdAt : Nat
  expiresAt : Nat
deriving DecidableEq

inductive ConvertResponse where
  | ok (cached : Bool) (model : ProcessedModel)
  | errorNoFile
  | errorNotIfc
  | errorTooLarge (size : Nat)
deriving DecidableEq

structure UploadFile where
  name : List Char
  bytes : List Nat
deriving DecidableEq

def CACHE_TTL : Nat := 60 * 60 * 1000

def ROUTE_MAX_SIZE : Nat := 20 * 1024 * 1024

/-- `file.name.toLowerCase().endsWith(".ifc")`, on the file name's character
list. -/
def endsWithIfc (s : List Char) : Bool :=
  List.isSuffixOf [Char.ofNat 46, Char.ofNat 105, Char.ofNat 102, Char.ofNat 99]
    (s.map Char.toLower)

/-- Process the file through the web-ifc pipeline (modelled as the `pipeline`
parameter, an external collaborator), build the `ProcessedModel` bundle with
a one-hour expiry, store it under its content-hash key, and answer with
`cached := false`. -/
def processAndStore
    (pipeline : List Nat → List RouteMesh × List RouteMaterial × List RouteStorey)
    (cache : List (String × ProcessedModel)) (key : String) (f : UploadFile) (now : Nat) :
    ConvertResponse × List (String × ProcessedModel) :=
  let r := pipeline f.bytes
  let model : ProcessedModel :=
    { id := key, fileName := String.mk f.name, meshCount := r.1.length, meshes := r.1,
      materials := r.2.1, storeys := r.2.2, spatialTree := none,
      createdAt := now, expiresAt := now + CACHE_TTL }
  (ConvertResponse.ok false model, aset cache key model)

/-- The POST handler: guard on a present `.ifc` file within the size limit,
key the cache by the content hash (`md5hex`, an external collaborator)
concatenated with the file name, answer from the cache when the stored entry
has not expired, and otherwise reprocess and store. -/
def postConvert (md5hex : List Nat → String)
    (pipeline : List Nat → List RouteMesh × List RouteMaterial × List RouteStorey)
    (cache : List (String × ProcessedModel)) (file : Option UploadFile) (now : Nat) :
    ConvertResponse × List (String × ProcessedModel) :=
  match file with
  | none => (ConvertResponse.errorNoFile, cache)
  | some f =>
    if endsWithIfc f.name = false then (ConvertResponse.errorNotIfc, cache)
    else if f.bytes.length > ROUTE_MAX_SIZE then
      (ConvertResponse.errorTooLarge f.bytes.length, cache)
    else
      let key := md5hex f.bytes ++ "_" ++ String.mk f.name
      match alookup cache key with
      | some m =>
        if m.expiresAt > now then (ConvertResponse.ok true m, cache)
        else processAndStore pipeline cache key f now
      | none => processAndStore pipeline cache key f now

def exMd5 : List Nat → String := fun _ => "d41d8cd9"

def exPipeline : List Nat → List RouteMesh × List RouteMaterial × List RouteStorey :=
  fun _ => ([], [], [])

def exUpload : UploadFile := { name := ['a', '.', 'i', 'f', 'c'], bytes := [1, 2, 3] }

/-! ### The recursive spatial-structure builder (parseSpatialStructure.buildNode)

`buildNode` materializes the tree from the accumulated `parent → children`
aggregation map and `spatial → elements` containment map, with the node name
and type looked up lazily (falling back to `"#" ++ id` and type 0).  The
source recursion carries no visited set or cycle guard, so it is embedded
with an explicit fuel parameter: `none` means the recursion did not finish
within the given fuel. -/

def seqOpt {α : Type} : List (Option α) → Option (List α)
  | [] => some []
  | o :: os =>
    match o with
    | none => none
    | some x =>
      match seqOpt os with
      | none => none
      | some xs => some (x :: xs)

def nodeNameOf (props : Nat → Option (String × Nat)) (id : Nat) : String :=
  match props id with
  | some p => p.1
  | none => "#" ++ toString id

def nodeTypeOf (props : Nat → Option (String × Nat)) (id : Nat) : Nat :=
  match props id with
  | some p => p.2
  | none => 0

def buildNodeF (agg con : Nat → List Nat) (props : Nat → Option (String × Nat)) :
    Nat → Nat → Option IFCSpatialNode
  | 0, _ => none
  | Nat.succ fuel, id =>
    match seqOpt ((agg id).map (fun c => buildNodeF agg con props fuel c)) with
    | some kids =>
      some (.node id (nodeNameOf props id) (nodeTypeOf props id) kids (con id))
    | none => none

/-- The coordinator state right after a scene pick of the type-7 group. -/
def exSceneState : CoordState :=
  { primary := [1, 2, 3], matId := none, tableInit := false, rowHl := none, secondary := [] }

/-! ### Theorems -/

theorem areplace_map_fst {κ β : Type} [DecidableEq κ]
    (m : List (κ × β)) (k : κ) (v : β) :
    (areplace m k v).map Prod.fst = m.map Prod.fst := by
  induction m with
  | nil => rfl
  | cons p ps ih =>
      simp only [areplace, List.map_cons] at *
      by_cases hk : p.1 = k
      · simp [hk, ih]
      · simp [hk, ih]

theorem areplace_of_not_mem {κ β : Type} [DecidableEq κ]
    (m : List (κ × β)) (k : κ) (v : β) (h : k ∉ m.map Prod.fst) :
    areplace m k v = m := by
  induction m with
  | nil => rfl
  | cons p ps ih =>
      simp only [List.map_cons, List.mem_cons] at h
      push_neg at h
      simp only [areplace, List.map_cons] at *
      rw [if_neg (fun hk => h.1 hk.symm), ih h.2]

theorem alookup_isSome_of_mem_keys {κ β : Type} [DecidableEq κ]
    (m : List (κ × β)) (k : κ) (h : k ∈ m.map Prod.fst) : (alookup m k).isSome := by
  induction m with
  | nil => simp at h
  | cons p ps ih =>
      simp only [List.map_cons, List.mem_cons] at h
      simp only [alookup]
      by_cases hk : p.1 = k
      · simp [hk]
      · cases h with
        | inl h1 => exact absurd h1.symm hk
        | inr h2 => simpa [hk] using ih h2

theorem upsert_keys_nodup {κ β : Type} [DecidableEq κ]
    (m : List (κ × β)) (k : κ) (init : β) (upd : β → β)
    (h : (m.map Prod.fst).Nodup) : ((upsert m k init upd).map Prod.fst).Nodup := by
  unfold upsert
  cases hl : alookup m k with
  | some g => rw [areplace_map_fst]; exact h
  | none =>
      rw [List.map_append]
      rw [List.nodup_append]
      refine ⟨h, by simp, ?_⟩
      intro a ha hb
      simp only [List.map_cons, List.map_nil, List.mem_singleton] at hb
      subst hb
      have hs := alookup_isSome_of_mem_keys m a ha
      rw [hl] at hs
      simp at hs

/-- Replacing the (unique) entry at a present key changes the projected sum by
swapping the old value for the new one. -/
theorem sumVals_areplace {κ β : Type} [DecidableEq κ]
    (m : List (κ × β)) (k : κ) (g v : β) (f : β → Nat)
    (h : (m.map Prod.fst).Nodup) (hl : alookup m k = some g) :
    sumVals f (areplace m k v) + f g = sumVals f m + f v := by
  induction m with
  | nil => simp [alookup] at hl
  | cons p ps ih =>
      simp only [List.map_cons, List.nodup_cons] at h
      simp only [alookup] at hl
      by_cases hk : p.1 = k
      · rw [if_pos hk] at hl
        have hg : g = p.2 := by injection hl with h2; exact h2.symm
        subst hg
        have hnot : k ∉ ps.map Prod.fst := by rw [← hk]; exact h.1
        have h1 : areplace (p :: ps) k v = (k, v) :: ps := by
          unfold areplace
          rw [List.map_cons, if_pos hk]
          exact congrArg (fun l => (k, v) :: l) (areplace_of_not_mem ps k v hnot)
        rw [h1]
        simp only [sumVals, List.map_cons, List.sum_cons]
        omega
      · rw [if_neg hk] at hl
        have h2 := ih h.2 hl
        have h1 : areplace (p :: ps) k v = p :: areplace ps k v := by
          unfold areplace
          rw [List.map_cons, if_neg hk]
        rw [h1]
        simp only [sumVals, List.map_cons, List.sum_cons] at *
        omega

/-- Counting lemma for `upsert`: if updating adds `c` to the projection `f`
and a fresh entry contributes `f init = c`, the total over all values grows by
exactly `c` (keys are distinct, as they are for a JS `Map`). -/
theorem upsert_sumVals {κ β : Type} [DecidableEq κ]
    (m : List (κ × β)) (k : κ) (init : β) (upd : β → β) (f : β → Nat) (c : Nat)
    (hinit : f init = c) (hupd : ∀ g, f (upd g) = f g + c)
    (h : (m.map Prod.fst).Nodup) :
    sumVals f (upsert m k init upd) = sumVals f m + c := by
  cases hl : alookup m k with
  | none =>
      have e : upsert m k init upd = m ++ [(k, init)] := by unfold upsert; rw [hl]
      rw [e]
      simp [sumVals, hinit]
  | some g =>
      have e : upsert m k init upd = areplace m k (upd g) := by unfold upsert; rw [hl]
      rw [e]
      have h2 := sumVals_areplace m k g (upd g) f h hl
      rw [hupd g] at h2
      omega

/-- C2, counterexample.  Clicking the storey that directly contains {5,6} and
whose only child space contains {7} selects only the direct elements {5,6},
not the claimed union {5,6,7}: `handleClick` ignores descendants whenever the
node has direct elements of its own. -/
theorem treeClick_storey_counterexample :
    treeHandleClick scenarioStorey = some [5, 6] ∧
      collectElements scenarioStorey = [5, 6, 7] ∧
      treeHandleClick scenarioStorey ≠ some [5, 6, 7] := by
  refine ⟨rfl, rfl, ?_⟩
  intro h
  simp [treeHandleClick, scenarioStorey, IFCSpatialNode.elements] at h

/-- C2, amended.  A tree-node click selects the node's own direct element ids
whenever it has any; only when it has none does it select the union of its own
and all transitive descendants' element ids; and when that union is also empty
the click is a no-op. -/
theorem treeClick_amended (n : IFCSpatialNode) :
    treeHandleClick n =
      if n.elements.length > 0 then some n.elements
      else if (collectElements n).length > 0 then some (collectElements n)
      else none := by
  cases n with
  | node i nm tc children elements =>
      by_cases he : elements.length > 0
      · simp [treeHandleClick, IFCSpatialNode.elements, he]
      · have he0 : elements = [] := List.length_eq_zero.mp (by omega)
        subst he0
        by_cases hc : children.length > 0
        · simp [treeHandleClick, IFCSpatialNode.elements, IFCSpatialNode.children, he, hc,
            collectElements]
        · have hc0 : children = [] := List.length_eq_zero.mp (by omega)
          subst hc0
          simp [treeHandleClick, IFCSpatialNode.elements, IFCSpatialNode.children,
            collectElements, collectChildren]

/-- C3, counterexample.  In the simplified hook wired into the main viewer, a
scene pick of element 2 with an absent type code clears the selection instead
of selecting {2}, and a pick whose type lookup is empty (type 9 is unseen)
yields the empty selection instead of falling back to the picked element. -/
theorem sceneSelect_simple_counterexample :
    (handleElementSelectSimple scenarioLookup (some 2) none).1 = [] ∧
      (handleElementSelectSimple scenarioLookup (some 2) none).1 ≠ [2] ∧
      (handleElementSelectSimple scenarioLookup (some 5) (some 9)).1 = [] ∧
      (handleElementSelectSimple scenarioLookup (some 5) (some 9)).1 ≠ [5] := by
  refine ⟨rfl, by decide, by decide, by decide⟩

/-- C3, amended.  The full variant of `handleElementSelect` behaves exactly as
the claim states: a scene miss clears both selections, a pick with an absent
or sentinel (0 or -1) type code selects only the picked element, and otherwise
the type-index lookup is used with a fallback to the picked element when the
lookup is empty; the secondary material id is always cleared.  The simplified
variant instead clears the selection on an absent type code and uses the raw
lookup with no fallback.  The spec scenario (three elements of type T1, pick
id 2 yields {1,2,3}; a miss yields {}) holds in both variants. -/
theorem sceneSelect_amended (lookup : Int → List Nat) (e : Nat) (t : Int) :
    handleElementSelectFull lookup none (some t) = ([], none) ∧
      handleElementSelectFull lookup none none = ([], none) ∧
      handleElementSelectFull lookup (some e) none = ([e], none) ∧
      handleElementSelectFull lookup (some e) (some t) =
        ((if t = 0 ∨ t = -1 then [e]
          else if (lookup t).length = 0 then [e] else lookup t), none) ∧
      handleElementSelectSimple lookup none (some t) = ([], none) ∧
      handleElementSelectSimple lookup (some e) none = ([], none) ∧
      handleElementSelectSimple lookup (some e) (some t) = (lookup t, none) ∧
      handleElementSelectFull scenarioLookup (some 2) (some 7) = ([1, 2, 3], none) ∧
      handleElementSelectSimple scenarioLookup (some 2) (some 7) = ([1, 2, 3], none) ∧
      handleElementSelectFull scenarioLookup none none = ([], none) := by
  refine ⟨rfl, rfl, rfl, ?_, rfl, rfl, rfl, by decide, by decide, rfl⟩
  by_cases hs : t = 0 ∨ t = -1
  · simp [handleElementSelectFull, hs]
  · by_cases hz : (lookup t).length = 0
    · simp [handleElementSelectFull, hs, hz]
    · simp [handleElementSelectFull, hs, hz]

theorem applyResetEffect_primary (old new : CoordState) :
    (applyResetEffect old new).primary = new.primary := by
  unfold applyResetEffect
  split_ifs <;> rfl

theorem applyResetEffect_matId (old new : CoordState) :
    (applyResetEffect old new).matId = new.matId := by
  unfold applyResetEffect
  split_ifs <;> rfl

theorem applyResetEffect_secondary (old new : CoordState) :
    (applyResetEffect old new).secondary = new.secondary := by
  unfold applyResetEffect
  split_ifs <;> rfl

/-- C4, counterexample.  After one click on `rowA` the coordinator is in
`PrimaryFromTable` with `rowA`'s group selected; clicking the same row twice
more (a double click performed in the `PrimaryFromTable` state in which the
row is already selected) ends with the group selected again, not in `Idle`:
the first of the two clicks toggles the selection off and the second one
re-selects it. -/
theorem tableToggle_counterexample :
    (selRun scenarioLookup [SelEvent.rowClick rowA]).primary = [1, 2] ∧
      (selRun scenarioLookup [SelEvent.rowClick rowA]).tableInit = true ∧
      (selRun scenarioLookup
        [SelEvent.rowClick rowA, SelEvent.rowClick rowA, SelEvent.rowClick rowA]).primary
        = [1, 2] ∧
      ([1, 2] : List Nat) ≠ [] := by
  refine ⟨by decide, by decide, by decide, by decide⟩

theorem selStep_primary (lookup : Int → List Nat) (s : CoordState) (e : SelEvent) :
    (selStep lookup s e).primary = (applyEvent lookup s e).primary := by
  unfold selStep
  rw [applyResetEffect_primary]

theorem selStep_matId (lookup : Int → List Nat) (s : CoordState) (e : SelEvent) :
    (selStep lookup s e).matId = (applyEvent lookup s e).matId := by
  unfold selStep
  rw [applyResetEffect_matId]

theorem selStep_secondary (lookup : Int → List Nat) (s : CoordState) (e : SelEvent) :
    (selStep lookup s e).secondary = (applyEvent lookup s e).secondary := by
  unfold selStep
  rw [applyResetEffect_secondary]

theorem applyResetEffect_tableInit_of (old new : CoordState)
    (hB : new.primary.length ≠ 0) (hC : new.matId ≠ none) :
    (applyResetEffect old new).tableInit = new.tableInit := by
  unfold applyResetEffect
  split_ifs <;> rfl

theorem applyResetEffect_rowHl_of (old new : CoordState)
    (hB : new.primary.length ≠ 0) (hC : new.matId ≠ none) :
    (applyResetEffect old new).rowHl = new.rowHl := by
  unfold applyResetEffect
  split_ifs <;> rfl

/-- C4, amended.  From `Idle` or from `PrimaryFromTable` with a row whose
group is not already the current table selection, the first click selects the
row's group and a second click on the same row clears back to `Idle` with an
empty primary selection; the toggle law therefore holds exactly when the row
was not already selected (when it is, the first click clears and the second
click re-selects, as the counterexample shows). -/
theorem tableToggle_amended (lookup : Int → List Nat) (s : CoordState) (r : MaterialRow)
    (hstate : s.primary.length = 0 ∨ s.tableInit = true)
    (hnot : s.matId ≠ some r.id) :
    (selStep lookup s (.rowClick r)).primary = r.expressIDs ∧
      (selStep lookup s (.rowClick r)).matId = some r.id ∧
      (selStep lookup (selStep lookup s (.rowClick r)) (.rowClick r)).primary = [] ∧
      (selStep lookup (selStep lookup s (.rowClick r)) (.rowClick r)).matId = some "" := by
  have e1 : applyEvent lookup s (.rowClick r)
      = { s with tableInit := true, matId := some r.id, primary := r.expressIDs } := by
    simp only [applyEvent]
    rw [if_pos hstate, if_neg hnot]
  have ht1p : (selStep lookup s (.rowClick r)).primary = r.expressIDs := by
    rw [selStep_primary, e1]
  have ht1m : (selStep lookup s (.rowClick r)).matId = some r.id := by
    rw [selStep_matId, e1]
  have ht1i : (selStep lookup s (.rowClick r)).primary.length = 0 ∨
      (selStep lookup s (.rowClick r)).tableInit = true := by
    by_cases hz : r.expressIDs.length = 0
    · left; rw [ht1p]; exact hz
    · right
      have hB : (applyEvent lookup s (.rowClick r)).primary.length ≠ 0 := by
        rw [e1]; simpa using hz
      have hC : (applyEvent lookup s (.rowClick r)).matId ≠ none := by
        rw [e1]; simp
      have ht := applyResetEffect_tableInit_of s (applyEvent lookup s (.rowClick r)) hB hC
      show (applyResetEffect s (applyEvent lookup s (.rowClick r))).tableInit = true
      rw [ht, e1]
  have e2 : applyEvent lookup (selStep lookup s (.rowClick r)) (.rowClick r)
      = { selStep lookup s (.rowClick r) with
            tableInit := false, matId := some "", primary := [] } := by
    simp only [applyEvent]
    rw [if_pos ht1i, if_pos ht1m]
  refine ⟨ht1p, ht1m, ?_, ?_⟩
  · rw [selStep_primary, e2]
  · rw [selStep_matId, e2]

/-- C5, counterexample.  With a scene-originated selection {1,2,3} active, a
first click on the displayed row `rowB` publishes the emphasis {1,2,3}, but a
second click on the same row (still under the active 3D selection) toggles the
emphasis off and publishes the empty list — not the row's member ids
intersected with the primary selection, which are {1,2,3}.  The primary
selection itself is unchanged by both clicks. -/
theorem tableEmphasis_counterexample :
    (selRun scenarioLookup [SelEvent.scenePick (some 2) (some 7), SelEvent.rowClick rowB]).secondary = [1, 2, 3] ∧
      (selRun scenarioLookup [SelEvent.scenePick (some 2) (some 7), SelEvent.rowClick rowB]).tableInit = false ∧
      (selRun scenarioLookup [SelEvent.scenePick (some 2) (some 7), SelEvent.rowClick rowB, SelEvent.rowClick rowB]).secondary = [] ∧
      (selRun scenarioLookup [SelEvent.scenePick (some 2) (some 7), SelEvent.rowClick rowB, SelEvent.rowClick rowB]).primary = [1, 2, 3] ∧
      rowB.expressIDs.filter (fun x => [1, 2, 3].contains x) = [1, 2, 3] ∧
      ([] : List Nat) ≠ [1, 2, 3] := by
  refine ⟨by decide, by decide, by decide, by decide, by decide, by decide⟩

/-- C5, amended.  While a scene-originated selection is active (non-empty
primary, no table-initiated selection), clicking a displayed row only toggles
the emphasis: when the row is not the currently emphasized one the secondary
selection becomes the row's displayed member ids, which are exactly the base
row's member ids intersected with the current primary selection; when it is,
the secondary selection is cleared.  The primary selection, the material id
and the table-initiated flag are unchanged in both cases. -/
theorem tableEmphasis_amended (lookup : Int → List Nat) (s : CoordState) (m r : MaterialRow)
    (hscene : s.tableInit = false) (hp : s.primary ≠ [])
    (hrow : filterRow s.primary m = some r) :
    (selStep lookup s (.rowClick r)).primary = s.primary ∧
      (selStep lookup s (.rowClick r)).matId = s.matId ∧
      (selStep lookup s (.rowClick r)).tableInit = s.tableInit ∧
      (selStep lookup s (.rowClick r)).rowHl
        = (if s.rowHl = some r.id then none else some r.id) ∧
      (selStep lookup s (.rowClick r)).secondary
        = (if s.rowHl = some r.id then []
           else m.expressIDs.filter (fun x => s.primary.contains x)) := by
  have hlen : ¬(s.primary.length = 0 ∨ s.tableInit = true) := by
    rw [hscene]
    push_neg
    refine ⟨by simpa using hp, by simp⟩
  have hids : r.expressIDs = m.expressIDs.filter (fun x => s.primary.contains x) := by
    unfold filterRow at hrow
    by_cases hf : (m.expressIDs.filter (fun x => s.primary.contains x)).length = 0
    · rw [if_pos hf] at hrow
      exact absurd hrow (by simp)
    · rw [if_neg hf] at hrow
      have := Option.some.inj hrow
      rw [← this]
  have e1 : applyEvent lookup s (.rowClick r)
      = { s with rowHl := (if s.rowHl = some r.id then none else some r.id),
                 secondary := (if s.rowHl = some r.id then []
                   else m.expressIDs.filter (fun x => s.primary.contains x)) } := by
    simp only [applyEvent]
    rw [if_neg hlen]
    by_cases hh : s.rowHl = some r.id
    · simp [hh]
    · simp [hh, hids]
  have hguard : (applyEvent lookup s (.rowClick r)).primary.length = s.primary.length ∧
      (applyEvent lookup s (.rowClick r)).matId = s.matId := by
    rw [e1]
    exact ⟨rfl, rfl⟩
  have estep : selStep lookup s (.rowClick r) = applyEvent lookup s (.rowClick r) := by
    show applyResetEffect s (applyEvent lookup s (.rowClick r))
      = applyEvent lookup s (.rowClick r)
    unfold applyResetEffect
    rw [if_pos hguard]
  rw [estep, e1]
  exact ⟨rfl, rfl, rfl, rfl, rfl⟩

/-- C6, counterexample.  A reachable trace — scene pick {1,2,3}, green table
emphasis on `rowB`, then a scene miss — leaves the published secondary element
list non-empty ({1,2,3}) while the primary selection is empty: the scene miss
clears the primary selection but nothing clears the parent's stored
`tableHighlightedIDs`. -/
theorem secondaryInvariant_counterexample :
    (selRun scenarioLookup [SelEvent.scenePick (some 2) (some 7), SelEvent.rowClick rowB, SelEvent.scenePick none none]).primary = [] ∧
      (selRun scenarioLookup [SelEvent.scenePick (some 2) (some 7), SelEvent.rowClick rowB, SelEvent.scenePick none none]).secondary = [1, 2, 3] ∧
      ([1, 2, 3] : List Nat) ≠ [] := by
  refine ⟨by decide, by decide, by decide⟩

theorem selStep_rowHl_inv (lookup : Int → List Nat) (s : CoordState) (e : SelEvent)
    (ih : s.primary = [] → s.rowHl = none)
    (h : (selStep lookup s e).primary = []) : (selStep lookup s e).rowHl = none := by
  show (applyResetEffect s (applyEvent lookup s e)).rowHl = none
  have h2 : (applyResetEffect s (applyEvent lookup s e)).primary = [] := h
  rw [applyResetEffect_primary] at h2
  unfold applyResetEffect
  split_ifs with h1 hB hC
  · -- the reset effect did not run: the dependencies did not change
    have hs0 : s.primary = [] := by
      have := h1.1
      rw [h2] at this
      exact List.length_eq_zero.mp this.symm
    have hr0 : s.rowHl = none := ih hs0
    -- no event can set the row marker from a state with an empty primary
    cases e with
    | scenePick a b => simpa [applyEvent] using hr0
    | treeSelect ids => simpa [applyEvent] using hr0
    | clearAll => simpa [applyEvent] using hr0
    | rowClick r =>
        have hcond : s.primary.length = 0 ∨ s.tableInit = true := by
          left; rw [hs0]; rfl
        simp only [applyEvent, if_pos hcond]
        by_cases hm : s.matId = some r.id
        · simpa [hm] using hr0
        · simpa [hm] using hr0
  · rfl
  · rfl
  · exact absurd (by rw [h2]; rfl) hB

/-- C6, amended.  In every reachable state of the composed selection machine,
the MaterialTable row marker `tableHighlightId` is set only while the primary
selection is non-empty — every transition that empties the primary selection
also clears it through the reset effect — and the green emphasis the scene
renders (primary ∩ published secondary) is empty whenever the primary
selection is empty.  The raw published secondary element list itself is not
cleared by a scene miss, as the counterexample shows. -/
theorem secondaryInvariant_amended (lookup : Int → List Nat) (es : List SelEvent)
    (h : (selRun lookup es).primary = []) :
    (selRun lookup es).rowHl = none ∧ sceneGreenHighlight (selRun lookup es) = [] := by
  constructor
  · have main : ∀ (l : List SelEvent) (s : CoordState), (s.primary = [] → s.rowHl = none) →
        ((l.foldl (selStep lookup) s).primary = [] → (l.foldl (selStep lookup) s).rowHl = none) := by
      intro l
      induction l with
      | nil => intro s ih; exact ih
      | cons e l2 ih2 =>
          intro s ih
          exact ih2 (selStep lookup s e) (selStep_rowHl_inv lookup s e ih)
    exact main es initCoordState (fun _ => rfl) h
  · unfold sceneGreenHighlight
    rw [h]
    rfl

set_option maxHeartbeats 1000000 in
theorem fragDims_exFragA : fragDims exFragA.1 exFragA.2
    = some { width := 1000, height := 1000, depth := 1000, area := 1 } := by
  norm_num [fragDims, boxFromPoints, boxApplyMat4, boxCorners, applyMat4, identityMat4,
    expandBox, boxOfPoint, jsRound, sortDesc3, exFragA]

set_option maxHeartbeats 1000000 in
theorem fragDims_exFragB : fragDims exFragB.1 exFragB.2
    = some { width := 1000, height := 1000, depth := 1000, area := 1 } := by
  norm_num [fragDims, boxFromPoints, boxApplyMat4, boxCorners, applyMat4, identityMat4,
    expandBox, boxOfPoint, jsRound, sortDesc3, exFragB]

set_option maxHeartbeats 1000000 in
theorem claimFragBox_exFragA : claimFragBox exFragA.1 exFragA.2
    = some { minX := 0, minY := 0, minZ := 0, maxX := 1, maxY := 1, maxZ := 1 } := by
  norm_num [claimFragBox, boxFromPoints, applyMat4, identityMat4, expandBox, boxOfPoint,
    exFragA]

set_option maxHeartbeats 1000000 in
theorem claimFragBox_exFragB : claimFragBox exFragB.1 exFragB.2
    = some { minX := 10, minY := 0, minZ := 0, maxX := 11, maxY := 1, maxZ := 1 } := by
  norm_num [claimFragBox, boxFromPoints, applyMat4, identityMat4, expandBox, boxOfPoint,
    exFragB]

/-- C7, counterexample.  For an element made of two disjoint unit cubes ten
meters apart, the claimed algorithm (vertex transform, box-union merge) gives
an 11000 mm wide element, but the code merges per-axis *sizes* with
`Math.max`, giving 1000 mm: fragment boxes are never unioned.  (The area is
summed per fragment, as the claim states: here 1 + 1 = 2.) -/
theorem fragmentDims_counterexample :
    (elementDimsOf [exFragA, exFragB]).map (fun d => d.width) = some 1000 ∧
      claimElementWidth [exFragA, exFragB] = some 11000 ∧
      (elementDimsOf [exFragA, exFragB]).map (fun d => d.area) = some 2 ∧
      (1000 : Int) ≠ 11000 := by
  have hcode : elementDimsOf [exFragA, exFragB]
      = some { width := 1000, height := 1000, depth := 1000, area := 2 } := by
    have : elementDimsOf [exFragA, exFragB]
        = some (mergeDims { width := 1000, height := 1000, depth := 1000, area := 1 }
            { width := 1000, height := 1000, depth := 1000, area := 1 }) := by
      simp [elementDimsOf, dimsStep, fragDims_exFragA, fragDims_exFragB]
    rw [this]
    norm_num [mergeDims]
  have hclaim : claimElementBox [exFragA, exFragB]
      = some { minX := 0, minY := 0, minZ := 0, maxX := 11, maxY := 1, maxZ := 1 } := by
    have : claimElementBox [exFragA, exFragB]
        = some (claimMergeBox { minX := 0, minY := 0, minZ := 0, maxX := 1, maxY := 1, maxZ := 1 }
            { minX := 10, minY := 0, minZ := 0, maxX := 11, maxY := 1, maxZ := 1 }) := by
      simp [claimElementBox, claimFragBox_exFragA, claimFragBox_exFragB]
    rw [this]
    norm_num [claimMergeBox]
  refine ⟨?_, ?_, ?_, by decide⟩
  · rw [hcode]; rfl
  · rw [claimElementWidth, hclaim]
    norm_num [jsRound]
  · rw [hcode]; rfl

theorem dims_fold_some (l : List (Mat4 × List Vec3)) (a : ElementDims) :
    l.foldl dimsStep (some a)
      = some ((l.filterMap (fun fr => fragDims fr.1 fr.2)).foldl mergeDims a) := by
  induction l generalizing a with
  | nil => rfl
  | cons fr l ih =>
      cases hfd : fragDims fr.1 fr.2 with
      | none => simp [dimsStep, hfd, ih]
      | some fd => simp [dimsStep, hfd, ih]

theorem dims_fold_none (l : List (Mat4 × List Vec3)) :
    l.foldl dimsStep none
      = (match l.filterMap (fun fr => fragDims fr.1 fr.2) with
         | [] => none
         | d :: ds => some (ds.foldl mergeDims d)) := by
  induction l with
  | nil => rfl
  | cons fr l ih =>
      cases hfd : fragDims fr.1 fr.2 with
      | none => simp [dimsStep, hfd, ih]
      | some fd => simp [dimsStep, hfd, dims_fold_some]

theorem mergeDims_foldl_closed (d : ElementDims) (l : List ElementDims) :
    l.foldl mergeDims d
      = { width := l.foldl (fun w e => max w e.width) d.width,
          height := l.foldl (fun h0 e => max h0 e.height) d.height,
          depth := l.foldl (fun dp e => max dp e.depth) d.depth,
          area := d.area + (l.map (fun e => e.area)).sum } := by
  induction l generalizing d with
  | nil => simp
  | cons e l ih =>
      simp only [List.foldl_cons, List.map_cons, List.sum_cons]
      rw [ih]
      simp [mergeDims, add_assoc]

/-- C7, amended.  The element's bounding metrics are accumulated per fragment
from the fragment's *local* bounding box transformed by its placement matrix
(THREE transforms the box corners, not the vertices), and the merge across an
element's fragments takes the per-axis maximum of the fragments' rounded
sizes — not a min-of-minima/max-of-maxima box union, as the counterexample
shows — while the area is the sum over fragments of the product of the two
largest of that fragment's transformed-box dimensions, exactly as claimed. -/
theorem fragmentDims_amended (frags : List (Mat4 × List Vec3)) (d : ElementDims)
    (ds : List ElementDims)
    (h : frags.filterMap (fun fr => fragDims fr.1 fr.2) = d :: ds) :
    elementDimsOf frags
      = some { width := ds.foldl (fun w e => max w e.width) d.width,
               height := ds.foldl (fun h0 e => max h0 e.height) d.height,
               depth := ds.foldl (fun dp e => max dp e.depth) d.depth,
               area := d.area + (ds.map (fun e => e.area)).sum } := by
  rw [elementDimsOf, dims_fold_none, h]
  exact congrArg some (mergeDims_foldl_closed d ds)

/-- Witness for `fragmentDims_amended` at the one-fragment element
`[exFragA]`. -/
theorem fragmentDims_amended_witness :
    [exFragA].filterMap (fun fr => fragDims fr.1 fr.2)
        = [{ width := 1000, height := 1000, depth := 1000, area := (1 : Rat) }] ∧
      elementDimsOf [exFragA]
        = some { width := 1000, height := 1000, depth := 1000, area := (1 : Rat) } := by
  have h : [exFragA].filterMap (fun fr => fragDims fr.1 fr.2)
      = [{ width := 1000, height := 1000, depth := 1000, area := (1 : Rat) }] := by
    simp [List.filterMap, fragDims_exFragA]
  refine ⟨h, ?_⟩
  have := fragmentDims_amended [exFragA]
    { width := 1000, height := 1000, depth := 1000, area := (1 : Rat) } [] h
  simpa using this

/-- C8.  A fragment whose vertex or index buffer is empty (zero reported size
or zero array length) is silently skipped: it produces no mesh, and the
stream's output with it inserted anywhere equals the output without it —
the remaining fragments are processed unchanged and no error outcome
exists. -/
theorem degenerateFragment_skipped (l1 l2 : List RawFragment) (f : RawFragment)
    (h : f.vertSize = 0 ∨ f.indexSize = 0 ∨ f.verts.length = 0 ∨ f.indices.length = 0) :
    buildFragment f = none ∧
      processFragments (l1 ++ f :: l2) = processFragments (l1 ++ l2) := by
  have hb : buildFragment f = none := by
    unfold buildFragment
    split_ifs with h1 h2
    · rfl
    · rfl
    · exact absurd h (by tauto)
  refine ⟨hb, ?_⟩
  unfold processFragments
  rw [List.filterMap_append, List.filterMap_append]
  have h2 : (f :: l2).filterMap buildFragment = l2.filterMap buildFragment := by
    simp [List.filterMap_cons, hb]
  rw [h2]

/-- Witness for `degenerateFragment_skipped` at the concrete degenerate
fragment. -/
theorem degenerateFragment_skipped_witness :
    (exDegenerateFrag.vertSize = 0 ∨ exDegenerateFrag.indexSize = 0 ∨
        exDegenerateFrag.verts.length = 0 ∨ exDegenerateFrag.indices.length = 0) ∧
      buildFragment exDegenerateFrag = none ∧
      processFragments ([] ++ exDegenerateFrag :: []) = processFragments ([] ++ []) :=
  ⟨Or.inl rfl,
    (degenerateFragment_skipped [] [] exDegenerateFrag (Or.inl rfl)).1,
    (degenerateFragment_skipped [] [] exDegenerateFrag (Or.inl rfl)).2⟩

theorem aggStep_keys_nodup (dims : Nat → Option ElementDims) (specOf : Nat → Nat → String)
    (m : List (String × MaterialGroupData)) (e : ElementEntry)
    (h : (m.map Prod.fst).Nodup) :
    ((aggStep dims specOf m e).map Prod.fst).Nodup := by
  unfold aggStep
  cases dims e.expressID with
  | none => exact h
  | some d => exact upsert_keys_nodup _ _ _ _ h

theorem aggStep_sumCount (dims : Nat → Option ElementDims) (specOf : Nat → Nat → String)
    (m : List (String × MaterialGroupData)) (e : ElementEntry) (x : Nat)
    (h : (m.map Prod.fst).Nodup) :
    sumVals (fun g => g.expressIDs.count x) (aggStep dims specOf m e)
      = sumVals (fun g => g.expressIDs.count x) m
        + (if (dims e.expressID).isSome ∧ e.expressID = x then 1 else 0) := by
  unfold aggStep
  cases hd : dims e.expressID with
  | none => simp
  | some d =>
      rw [upsert_sumVals _ _ _ _ _ (if e.expressID = x then 1 else 0)]
      · simp
      · by_cases he : e.expressID = x <;> simp [List.count_singleton', he]
      · intro g
        by_cases he : e.expressID = x <;> simp [List.count_singleton', he]
      · exact h

theorem aggFold_sumCount (dims : Nat → Option ElementDims) (specOf : Nat → Nat → String)
    (entries : List ElementEntry) (x : Nat) :
    ∀ m, (m.map Prod.fst).Nodup →
      sumVals (fun g => g.expressIDs.count x) (entries.foldl (aggStep dims specOf) m)
        = sumVals (fun g => g.expressIDs.count x) m
          + ((entries.filter (fun e => (dims e.expressID).isSome)).map
              (fun e => e.expressID)).count x := by
  induction entries with
  | nil => intro m h; simp
  | cons e l ih =>
      intro m h
      rw [List.foldl_cons, ih (aggStep dims specOf m e) (aggStep_keys_nodup _ _ _ _ h),
        aggStep_sumCount _ _ _ _ _ h]
      by_cases hd : (dims e.expressID).isSome
      · by_cases he : e.expressID = x
        · subst he
          simp [List.filter_cons, hd, List.count_cons]
          omega
        · simp only [List.filter_cons, hd, if_true, List.map_cons, List.count_cons]
          have hne : ¬(x == e.expressID) = true := by
            simp
            exact fun hx => he hx.symm
          simp [hd, he, hne]
      · simp [List.filter_cons, hd]

theorem memberCount_aggregateClient (dims : Nat → Option ElementDims)
    (specOf : Nat → Nat → String) (entries : List ElementEntry) (x : Nat) :
    memberCount (aggregateClient dims specOf entries) x
      = ((entries.filter (fun e => (dims e.expressID).isSome)).map
          (fun e => e.expressID)).count x := by
  unfold memberCount aggregateClient
  rw [List.map_map]
  have h := aggFold_sumCount dims specOf entries x [] (by simp)
  simpa [sumVals, Function.comp] using h

theorem eligible_count (dims : Nat → Option ElementDims) (entries : List ElementEntry) (x : Nat)
    (hnd : (entries.map (fun e => e.expressID)).Nodup) :
    ((entries.filter (fun e => (dims e.expressID).isSome)).map (fun e => e.expressID)).count x
      = if x ∈ entries.map (fun e => e.expressID) ∧ (dims x).isSome then 1 else 0 := by
  have hsub : List.Sublist
      ((entries.filter (fun e => (dims e.expressID).isSome)).map (fun e => e.expressID))
      (entries.map (fun e => e.expressID)) :=
    List.Sublist.map _ (List.filter_sublist _)
  have hnd2 := hnd.sublist hsub
  by_cases hx : x ∈ entries.map (fun e => e.expressID) ∧ (dims x).isSome
  · rw [if_pos hx]
    obtain ⟨hmem, hds⟩ := hx
    obtain ⟨e, he, hex⟩ := List.mem_map.mp hmem
    have hmem2 : x ∈ (entries.filter (fun e => (dims e.expressID).isSome)).map
        (fun e => e.expressID) := by
      apply List.mem_map.mpr
      refine ⟨e, ?_, hex⟩
      apply List.mem_filter.mpr
      refine ⟨he, ?_⟩
      rw [hex]
      exact hds
    have h1 : 0 < (((entries.filter (fun e => (dims e.expressID).isSome)).map
        (fun e => e.expressID)).count x) := List.count_pos_iff.mpr hmem2
    have h2 := List.nodup_iff_count_le_one.mp hnd2 x
    omega
  · rw [if_neg hx]
    push_neg at hx
    apply List.count_eq_zero.mpr
    intro hmem2
    obtain ⟨e, hef, hex⟩ := List.mem_map.mp hmem2
    have hf := List.mem_filter.mp hef
    have hmem : x ∈ entries.map (fun e => e.expressID) := List.mem_map.mpr ⟨e, hf.1, hex⟩
    have hno := hx hmem
    have hds : (dims x).isSome := by rw [← hex]; exact hf.2
    exact absurd hds (by simpa using hno)

theorem pushFold_sumCount {κ α : Type} [DecidableEq κ] (key : α → κ) (val : α → Nat)
    (xs : List α) (x : Nat) :
    ∀ m, (m.map Prod.fst).Nodup →
      sumVals (fun l => l.count x)
          (xs.foldl (fun m a => upsert m (key a) [val a] (fun l => l ++ [val a])) m)
        = sumVals (fun l => l.count x) m + (xs.map val).count x := by
  induction xs with
  | nil => intro m h; simp
  | cons a l ih =>
      intro m h
      rw [List.foldl_cons, ih _ (upsert_keys_nodup _ _ _ _ h),
        upsert_sumVals m (key a) [val a] (fun l => l ++ [val a])
          (fun l => List.count x l) ([val a].count x) rfl
          (fun g => by simp [List.count_append]) h]
      simp only [List.map_cons, List.count_cons, List.count_singleton', List.count_nil]
      omega

theorem workerTypeMap_sumCount (elems : List WorkerElem) (x : Nat) :
    sumVals (fun l => l.count x) (workerTypeMap elems)
      = (elems.map (fun e => e.expressID)).count x := by
  have h := pushFold_sumCount (fun e : WorkerElem => e.typeCode)
    (fun e => e.expressID) elems x [] (by simp)
  simpa [workerTypeMap, sumVals] using h

theorem specGroupsFor_sumCount (dims : Nat → Option WorkerDims) (ids : List Nat) (x : Nat) :
    sumVals (fun l => l.count x) (specGroupsFor dims ids) = ids.count x := by
  have h := pushFold_sumCount
    (fun id => (match dims id with | some d => getDimensionSpec d | none => "unknown"))
    (fun id : Nat => id) ids x [] (by simp)
  simpa [specGroupsFor, sumVals] using h

theorem workerAggregate_memberCount (typeMap : List (Nat × List Nat))
    (dims : Nat → Option WorkerDims) (x : Nat) :
    workerMemberCount (workerAggregate typeMap dims) x
      = sumVals (fun l => l.count x) typeMap := by
  have main : ∀ acc, workerMemberCount
      (typeMap.foldl (fun acc p =>
        acc ++ (specGroupsFor dims p.2).map (fun sp =>
          { typeCode := p.1, spec := sp.1, count := sp.2.length,
            expressIDs := sp.2 : WorkerMaterial })) acc) x
        = workerMemberCount acc x + sumVals (fun l => l.count x) typeMap := by
    induction typeMap with
    | nil => intro acc; simp [sumVals]
    | cons p l ih =>
        intro acc
        rw [List.foldl_cons, ih]
        have hblock : workerMemberCount
            (acc ++ (specGroupsFor dims p.2).map (fun sp =>
              { typeCode := p.1, spec := sp.1, count := sp.2.length,
                expressIDs := sp.2 : WorkerMaterial })) x
            = workerMemberCount acc x + p.2.count x := by
          unfold workerMemberCount
          rw [List.map_append, List.sum_append, List.map_map]
          have h2 := specGroupsFor_sumCount dims p.2 x
          unfold sumVals at h2
          rw [← h2]
          rfl
        rw [hblock]
        simp [sumVals]
        omega
  have h := main []
  unfold workerAggregate
  rw [h]
  simp [workerMemberCount]

theorem workerMaterials_memberCount (elems : List WorkerElem) (x : Nat) :
    workerMemberCount (workerMaterials elems) x
      = (elems.map (fun e => e.expressID)).count x := by
  unfold workerMaterials
  rw [workerAggregate_memberCount, workerTypeMap_sumCount]

/-- C1, counterexample.  In the worker variant, an element streamed with only
degenerate geometry acquires no bounding metrics (no `elementDimensions`
entry), yet the aggregation still places it in a material group — under the
literal spec `"unknown"` — contradicting the claim that every element with no
bounding metrics is excluded from every group. -/
theorem materialPartition_counterexample :
    alookup (workerDimsMap [exWorkerElem]) 1 = none ∧
      workerMaterials [exWorkerElem]
        = [{ typeCode := 45, spec := "unknown", count := 1, expressIDs := [1] }] ∧
      (workerMaterials [exWorkerElem]).any (fun g => g.expressIDs.contains 1) = true := by
  refine ⟨by decide, by decide, by decide⟩

/-- C1, amended.  The client loader's aggregation partitions exactly the
elements with bounding metrics: under distinct streamed ids, an element id
occurs exactly once across all groups when it was streamed and has a
dimension entry, and zero times otherwise (so elements with no bounding
metrics are excluded there).  The worker's aggregation instead partitions
*all* streamed elements: every streamed id occurs across its groups exactly
as often as it was streamed, with metric-less elements grouped under the spec
`"unknown"` rather than excluded. -/
theorem materialPartition_amended (dims : Nat → Option ElementDims)
    (specOf : Nat → Nat → String) (entries : List ElementEntry)
    (elems : List WorkerElem) (x : Nat)
    (hnd : (entries.map (fun e => e.expressID)).Nodup) :
    memberCount (aggregateClient dims specOf entries) x
        = (if x ∈ entries.map (fun e => e.expressID) ∧ (dims x).isSome then 1 else 0) ∧
      workerMemberCount (workerMaterials elems) x
        = (elems.map (fun e => e.expressID)).count x := by
  constructor
  · rw [memberCount_aggregateClient, eligible_count dims entries x hnd]
  · exact workerMaterials_memberCount elems x

/-- Witness for `materialPartition_amended`: one client element with metrics,
one without, and the degenerate worker element. -/
theorem materialPartition_amended_witness :
    ((([⟨1, 45⟩, ⟨2, 45⟩] : List ElementEntry).map (fun e => e.expressID)).Nodup) ∧
      (memberCount (aggregateClient
            (fun i => if i = 1 then some { width := 300, height := 200, depth := 2700, area := (1 : Rat) } else none)
            (fun _ _ => "spec") [⟨1, 45⟩, ⟨2, 45⟩]) 1
          = 1 ∧
        workerMemberCount (workerMaterials [exWorkerElem]) 1 = 1) := by
  have hnd : (([⟨1, 45⟩, ⟨2, 45⟩] : List ElementEntry).map (fun e => e.expressID)).Nodup := by
    decide
  refine ⟨hnd, ?_, ?_⟩
  · have h := (materialPartition_amended
      (fun i => if i = 1 then some { width := 300, height := 200, depth := 2700, area := (1 : Rat) } else none)
      (fun _ _ => "spec") [⟨1, 45⟩, ⟨2, 45⟩] [exWorkerElem] 1 hnd).1
    rw [h]
    decide
  · have h := (materialPartition_amended
      (fun i => if i = 1 then some { width := 300, height := 200, depth := 2700, area := (1 : Rat) } else none)
      (fun _ _ => "spec") [⟨1, 45⟩, ⟨2, 45⟩] [exWorkerElem] 1 hnd).2
    rw [h]
    decide

theorem alookup_append_right {β : Type} (m : List (String × β)) (k : String) (v : β)
    (h : alookup m k = none) : alookup (m ++ [(k, v)]) k = some v := by
  induction m with
  | nil => simp [alookup]
  | cons p ps ih =>
      simp only [alookup] at h ⊢
      by_cases hk : p.1 = k
      · rw [if_pos hk] at h
        exact absurd h (by simp)
      · rw [if_neg hk] at h ⊢
        exact ih h

theorem alookup_areplace_self {β : Type} (m : List (String × β)) (k : String) (v : β)
    (h : (alookup m k).isSome) : alookup (areplace m k v) k = some v := by
  induction m with
  | nil => simp [alookup] at h
  | cons p ps ih =>
      simp only [alookup] at h
      by_cases hk : p.1 = k
      · unfold areplace
        rw [List.map_cons, if_pos hk]
        simp [alookup]
      · rw [if_neg hk] at h
        unfold areplace
        rw [List.map_cons, if_neg hk]
        simp only [alookup]
        rw [if_neg hk]
        exact ih h

theorem alookup_aset_self {β : Type} (m : List (String × β)) (k : String) (v : β) :
    alookup (aset m k v) k = some v := by
  unfold aset
  cases hl : alookup m k with
  | none => exact alookup_append_right m k v hl
  | some g => exact alookup_areplace_self m k v (by simp [hl])

theorem postConvert_hit (md5hex : List Nat → String)
    (pipeline : List Nat → List RouteMesh × List RouteMaterial × List RouteStorey)
    (cache : List (String × ProcessedModel)) (f : UploadFile) (now : Nat)
    (m : ProcessedModel)
    (hname : endsWithIfc f.name = true) (hsize : ¬ f.bytes.length > ROUTE_MAX_SIZE)
    (hl : alookup cache (md5hex f.bytes ++ "_" ++ String.mk f.name) = some m)
    (hexp : m.expiresAt > now) :
    postConvert md5hex pipeline cache (some f) now = (ConvertResponse.ok true m, cache) := by
  simp [postConvert, hl, hname, hsize, hexp]

theorem postConvert_store_none (md5hex : List Nat → String)
    (pipeline : List Nat → List RouteMesh × List RouteMaterial × List RouteStorey)
    (cache : List (String × ProcessedModel)) (f : UploadFile) (now : Nat)
    (hname : endsWithIfc f.name = true) (hsize : ¬ f.bytes.length > ROUTE_MAX_SIZE)
    (hl : alookup cache (md5hex f.bytes ++ "_" ++ String.mk f.name) = none) :
    postConvert md5hex pipeline cache (some f) now
      = processAndStore pipeline cache (md5hex f.bytes ++ "_" ++ String.mk f.name) f now := by
  simp [postConvert, hl, hname, hsize]

theorem postConvert_store_expired (md5hex : List Nat → String)
    (pipeline : List Nat → List RouteMesh × List RouteMaterial × List RouteStorey)
    (cache : List (String × ProcessedModel)) (f : UploadFile) (now : Nat)
    (m : ProcessedModel)
    (hname : endsWithIfc f.name = true) (hsize : ¬ f.bytes.length > ROUTE_MAX_SIZE)
    (hl : alookup cache (md5hex f.bytes ++ "_" ++ String.mk f.name) = some m)
    (hexp : ¬ m.expiresAt > now) :
    postConvert md5hex pipeline cache (some f) now
      = processAndStore pipeline cache (md5hex f.bytes ++ "_" ++ String.mk f.name) f now := by
  simp [postConvert, hl, hname, hsize, hexp]

theorem processAndStore_eq
    (pipeline : List Nat → List RouteMesh × List RouteMaterial × List RouteStorey)
    (cache : List (String × ProcessedModel)) (key : String) (f : UploadFile) (now : Nat) :
    processAndStore pipeline cache key f now
      = (ConvertResponse.ok false
          { id := key, fileName := String.mk f.name, meshCount := (pipeline f.bytes).1.length,
            meshes := (pipeline f.bytes).1, materials := (pipeline f.bytes).2.1,
            storeys := (pipeline f.bytes).2.2, spatialTree := none,
            createdAt := now, expiresAt := now + CACHE_TTL },
         aset cache key
          { id := key, fileName := String.mk f.name, meshCount := (pipeline f.bytes).1.length,
            meshes := (pipeline f.bytes).1, materials := (pipeline f.bytes).2.1,
            storeys := (pipeline f.bytes).2.2, spatialTree := none,
            createdAt := now, expiresAt := now + CACHE_TTL }) := rfl

/-- C9.  A second submission of the same file (byte-identical content, same
name) before the stored bundle's expiry timestamp short-circuits the
pipeline: whatever the first call produced (a fresh bundle or an earlier
cached one), the second call answers with exactly that bundle, marked
`cached := true`, and leaves the cache unchanged — hence the same `meshCount`
and the same material-group list as the first response. -/
theorem convertCache_hit (md5hex : List Nat → String)
    (pipeline : List Nat → List RouteMesh × List RouteMaterial × List RouteStorey)
    (cache : List (String × ProcessedModel)) (f : UploadFile) (t0 t1 : Nat)
    (hname : endsWithIfc f.name = true) (hsize : ¬ f.bytes.length > ROUTE_MAX_SIZE) :
    ∃ b0 m0,
      postConvert md5hex pipeline cache (some f) t0
        = (ConvertResponse.ok b0 m0, (postConvert md5hex pipeline cache (some f) t0).2) ∧
      (t1 < m0.expiresAt →
        postConvert md5hex pipeline (postConvert md5hex pipeline cache (some f) t0).2
            (some f) t1
          = (ConvertResponse.ok true m0,
              (postConvert md5hex pipeline cache (some f) t0).2)) := by
  cases hl : alookup cache (md5hex f.bytes ++ "_" ++ String.mk f.name) with
  | some m =>
      by_cases hexp : m.expiresAt > t0
      · have hred := postConvert_hit md5hex pipeline cache f t0 m hname hsize hl hexp
        refine ⟨true, m, ?_, ?_⟩
        · rw [hred]
        · intro ht
          rw [hred]
          exact postConvert_hit md5hex pipeline cache f t1 m hname hsize hl ht
      · have hred := (postConvert_store_expired md5hex pipeline cache f t0 m hname hsize
          hl hexp).trans (processAndStore_eq pipeline cache _ f t0)
        refine ⟨false, { id := md5hex f.bytes ++ "_" ++ String.mk f.name, fileName := String.mk f.name, meshCount := (pipeline f.bytes).1.length, meshes := (pipeline f.bytes).1, materials := (pipeline f.bytes).2.1, storeys := (pipeline f.bytes).2.2, spatialTree := none, createdAt := t0, expiresAt := t0 + CACHE_TTL }, ?_, ?_⟩
        · rw [hred]
        · intro ht
          rw [hred]
          exact postConvert_hit md5hex pipeline _ f t1 _ hname hsize
            (alookup_aset_self _ _ _) ht
  | none =>
      have hred := (postConvert_store_none md5hex pipeline cache f t0 hname hsize
        hl).trans (processAndStore_eq pipeline cache _ f t0)
      refine ⟨false, { id := md5hex f.bytes ++ "_" ++ String.mk f.name, fileName := String.mk f.name, meshCount := (pipeline f.bytes).1.length, meshes := (pipeline f.bytes).1, materials := (pipeline f.bytes).2.1, storeys := (pipeline f.bytes).2.2, spatialTree := none, createdAt := t0, expiresAt := t0 + CACHE_TTL }, ?_, ?_⟩
      · rw [hred]
      · intro ht
        rw [hred]
        exact postConvert_hit md5hex pipeline _ f t1 _ hname hsize
          (alookup_aset_self _ _ _) ht

/-- Witness for `convertCache_hit`: a three-byte `.ifc` upload against an
empty cache at times 0 and 1. -/
theorem convertCache_hit_witness :
    endsWithIfc exUpload.name = true ∧
      (¬ exUpload.bytes.length > ROUTE_MAX_SIZE) ∧
      (∃ b0 m0,
        postConvert exMd5 exPipeline [] (some exUpload) 0
          = (ConvertResponse.ok b0 m0,
              (postConvert exMd5 exPipeline [] (some exUpload) 0).2) ∧
        (1 < m0.expiresAt →
          postConvert exMd5 exPipeline
              (postConvert exMd5 exPipeline [] (some exUpload) 0).2 (some exUpload) 1
            = (ConvertResponse.ok true m0,
                (postConvert exMd5 exPipeline [] (some exUpload) 0).2))) :=
  ⟨by decide, by decide, convertCache_hit exMd5 exPipeline [] exUpload 0 1 (by decide) (by decide)⟩

theorem seqOpt_isSome {α : Type} (l : List (Option α)) (h : ∀ o ∈ l, o.isSome) :
    (seqOpt l).isSome := by
  induction l with
  | nil => simp [seqOpt]
  | cons o os ih =>
      have ho := h o (by simp)
      obtain ⟨x, hx⟩ := Option.isSome_iff_exists.mp ho
      have hos := ih (fun o2 ho2 => h o2 (by simp [ho2]))
      obtain ⟨xs, hxs⟩ := Option.isSome_iff_exists.mp hos
      simp [seqOpt, hx, hxs]

/-- C10.  When the aggregation relation is acyclic — witnessed by a rank
function that strictly decreases from parent to child, as the tree-shaped
data-model invariant guarantees — `buildNode` terminates: for every fuel
budget beyond the node's rank the recursion finishes, with a result
independent of the budget.  The recursion really carries no cycle guard: on
the one-node self-loop relation it never finishes, for any fuel. -/
theorem buildNode_terminates (agg con : Nat → List Nat)
    (props : Nat → Option (String × Nat)) (rank : Nat → Nat)
    (hr : ∀ id c, c ∈ agg id → rank c < rank id) :
    (∀ id f1 f2, rank id < f1 → rank id < f2 →
        buildNodeF agg con props f1 id = buildNodeF agg con props f2 id ∧
          (buildNodeF agg con props f1 id).isSome) ∧
      (∀ (con2 : Nat → List Nat) (props2 : Nat → Option (String × Nat)) (f : Nat),
        buildNodeF (fun id => if id = 1 then [1] else []) con2 props2 f 1 = none) := by
  constructor
  · have main : ∀ n id, rank id < n → ∀ f1 f2, rank id < f1 → rank id < f2 →
        buildNodeF agg con props f1 id = buildNodeF agg con props f2 id ∧
          (buildNodeF agg con props f1 id).isSome := by
      intro n
      induction n with
      | zero => intro id h; omega
      | succ n ih =>
          intro id hlt f1 f2 h1 h2
          cases f1 with
          | zero => omega
          | succ g1 =>
              cases f2 with
              | zero => omega
              | succ g2 =>
                  have hchild : ∀ c, c ∈ agg id →
                      buildNodeF agg con props g1 c = buildNodeF agg con props g2 c ∧
                        (buildNodeF agg con props g1 c).isSome := by
                    intro c hc
                    have hcr := hr id c hc
                    exact ih c (by omega) g1 g2 (by omega) (by omega)
                  have hmapeq : (agg id).map (fun c => buildNodeF agg con props g1 c)
                      = (agg id).map (fun c => buildNodeF agg con props g2 c) :=
                    List.map_congr_left (fun c hc => (hchild c hc).1)
                  have hall : ∀ o ∈ (agg id).map (fun c => buildNodeF agg con props g1 c),
                      o.isSome := by
                    intro o ho
                    obtain ⟨c, hc, rfl⟩ := List.mem_map.mp ho
                    exact (hchild c hc).2
                  obtain ⟨kids, hkids⟩ := Option.isSome_iff_exists.mp
                    (seqOpt_isSome _ hall)
                  constructor
                  · simp only [buildNodeF]
                    rw [hmapeq]
                  · simp only [buildNodeF]
                    rw [hkids]
                    rfl
    intro id f1 f2 h1 h2
    exact main (rank id + 1) id (by omega) f1 f2 h1 h2
  · intro con2 props2 f
    induction f with
    | zero => rfl
    | succ g ih =>
        simp only [buildNodeF]
        simp [ih, seqOpt]

/-- Witness for `buildNode_terminates`: the empty aggregation relation with
constant rank 0, at node 5 with fuel budgets 1 and 2. -/
theorem buildNode_terminates_witness :
    (∀ id c, c ∈ (fun _ : Nat => ([] : List Nat)) id → (fun _ : Nat => 0) c < (fun _ : Nat => 0) id) ∧
      (buildNodeF (fun _ => []) (fun _ => []) (fun _ => none) 1 5
          = buildNodeF (fun _ => []) (fun _ => []) (fun _ => none) 2 5 ∧
        (buildNodeF (fun _ => []) (fun _ => []) (fun _ => none) 1 5).isSome) := by
  have hr : ∀ id c, c ∈ (fun _ : Nat => ([] : List Nat)) id →
      (fun _ : Nat => 0) c < (fun _ : Nat => 0) id := by
    intro id c hc
    exact absurd hc (List.not_mem_nil c)
  exact ⟨hr, (buildNode_terminates (fun _ => []) (fun _ => []) (fun _ => none)
    (fun _ => 0) hr).1 5 1 2 (by omega) (by omega)⟩

/-- Witness for `tableToggle_amended`: double-clicking `rowA` from the idle
state. -/
theorem tableToggle_amended_witness :
    (initCoordState.primary.length = 0 ∨ initCoordState.tableInit = true) ∧
      initCoordState.matId ≠ some rowA.id ∧
      ((selStep scenarioLookup initCoordState (.rowClick rowA)).primary = rowA.expressIDs ∧
        (selStep scenarioLookup initCoordState (.rowClick rowA)).matId = some rowA.id ∧
        (selStep scenarioLookup (selStep scenarioLookup initCoordState (.rowClick rowA))
            (.rowClick rowA)).primary = [] ∧
        (selStep scenarioLookup (selStep scenarioLookup initCoordState (.rowClick rowA))
            (.rowClick rowA)).matId = some "") :=
  ⟨Or.inl rfl, by decide,
    tableToggle_amended scenarioLookup initCoordState rowA (Or.inl rfl) (by decide)⟩

/-- Witness for `tableEmphasis_amended`: a first green click on the displayed
row `rowB` under the scene-originated selection {1,2,3}. -/
theorem tableEmphasis_amended_witness :
    exSceneState.tableInit = false ∧
      exSceneState.primary ≠ [] ∧
      filterRow exSceneState.primary rowB = some rowB ∧
      ((selStep scenarioLookup exSceneState (.rowClick rowB)).primary = exSceneState.primary ∧
        (selStep scenarioLookup exSceneState (.rowClick rowB)).matId = exSceneState.matId ∧
        (selStep scenarioLookup exSceneState (.rowClick rowB)).tableInit = exSceneState.tableInit ∧
        (selStep scenarioLookup exSceneState (.rowClick rowB)).rowHl
          = (if exSceneState.rowHl = some rowB.id then none else some rowB.id) ∧
        (selStep scenarioLookup exSceneState (.rowClick rowB)).secondary
          = (if exSceneState.rowHl = some rowB.id then []
             else rowB.expressIDs.filter (fun x => exSceneState.primary.contains x))) :=
  ⟨rfl, by decide, by decide,
    tableEmphasis_amended scenarioLookup exSceneState rowB rowB rfl (by decide) (by decide)⟩

/-- Witness for `secondaryInvariant_amended`: the empty trace. -/
theorem secondaryInvariant_amended_witness :
    (selRun scenarioLookup []).primary = [] ∧
      ((selRun scenarioLookup []).rowHl = none ∧
        sceneGreenHighlight (selRun scenarioLookup []) = []) :=
  ⟨rfl, secondaryInvariant_amended scenarioLookup [] rfl⟩
